import Mathlib

/-!
Verification of the concurrent brand-intelligence web crawler
(`web_crawler_comprehensive.py`, class `ComprehensiveWebCrawler`).

The development shallowly embeds the crawler:

* string helpers mirror the Python `urllib.parse`/`str` operations the
  crawler uses (`urlparse(...).netloc`, `split('#')[0].split('?')[0]`,
  `rstrip('/')`, lower-cased substring tests);
* the per-page data (`extract_comprehensive_data`) and the shared
  collected-data fields that the verified properties touch are explicit
  structures;
* the worker loop (`ComprehensiveWebCrawler.worker`) is a small-step
  transition system: every lock-protected region of the Python code is one
  atomic step, every `await` boundary separates steps, and fetch/extract
  outcomes are chosen by the environment through the step label;
* the single-threaded aggregation (`process_collected_data`) is a pure
  function on the final state.

Theorems about all interleavings are stated over the reflexive-transitive
closure of the step relation; concrete crawl scenarios are executed with
`runSteps` and discharged by `decide`.
-/

namespace Crawler

/-! ### String helpers (Python `str` / `urllib.parse` behaviour) -/

/-- Does `hay` start with `pat`? (helper for substring search). -/
def startsList : List Char → List Char → Bool
  | _, [] => true
  | [], _ :: _ => false
  | c :: cs, d :: ds => c = d && startsList cs ds

/-- Substring test on character lists: Python's `pat in hay`. -/
def hasSubList : List Char → List Char → Bool
  | _, [] => true
  | [], _ :: _ => false
  | c :: cs, d :: ds => startsList (c :: cs) (d :: ds) || hasSubList cs (d :: ds)

/-- Python's `pat in hay` on strings (substring containment). -/
def strHas (hay pat : String) : Bool :=
  hasSubList hay.toList pat.toList

/-- Python's `s.lower()` (ASCII case fold, as used on class/alt text). -/
def lowerStr (s : String) : String :=
  String.mk (s.toList.map Char.toLower)

/-- Python's `s.split(ch)[0]`: the prefix of `s` before the first `ch`. -/
def cutAt (ch : Char) (s : String) : String :=
  String.mk (s.toList.takeWhile (fun d => d ≠ ch))

/-- `link['url'].split('#')[0].split('?')[0]` — URL normalization applied
before a link is pushed onto the frontier (worker, line 1536). -/
def normalizeLink (u : String) : String :=
  cutAt '?' (cutAt '#' u)

/-- Python's `s.rstrip('/')` as applied to the crawl root
(`self.base_url = base_url.rstrip('/')`). -/
def rstripSlash (s : String) : String :=
  String.mk ((s.toList.reverse.dropWhile (fun ch => ch = '/')).reverse)

/-- Characters allowed in a URL scheme (`urllib.parse`). -/
def isSchemeChar (ch : Char) : Bool :=
  ch.isAlpha || ch.isDigit || ch = '+' || ch = '-' || ch = '.'

/-- Strip a leading `scheme:` from a URL, as `urllib.parse.urlsplit` does:
the part before the first `:` must be non-empty, start with a letter and
consist of scheme characters. -/
def dropScheme (cs : List Char) : List Char :=
  let pre := cs.takeWhile (fun ch => ch ≠ ':')
  match pre with
  | [] => cs
  | h :: _ =>
    if pre.length < cs.length ∧ h.isAlpha = true ∧ pre.all isSchemeChar = true then
      cs.drop (pre.length + 1)
    else cs

/-- `urllib.parse.urlparse(s).netloc`: after an optional `scheme:`, the
network location is present only behind `//` and extends to the next
`/`, `?` or `#`. -/
def netloc (s : String) : String :=
  match dropScheme s.toList with
  | '/' :: '/' :: r => String.mk (r.takeWhile (fun ch => ch ≠ '/' ∧ ch ≠ '?' ∧ ch ≠ '#'))
  | _ => ""

/-! ### Data model -/

/-- An outbound link as returned by the link-extraction script
(`{url, text}`). -/
structure LinkItem where
  url : String
  text : String
deriving DecidableEq, Repr

/-- A logo candidate as produced by the logo-extraction script
(`{url, alt, classes, prominence, ...}`); `prominence` is the bounding-box
area plus a 10000 bonus for header/nav placement. -/
structure Logo where
  url : String
  alt : String
  classes : String
  prominence : Nat
deriving DecidableEq, Repr

/-- A logo after aggregation: the kept candidate plus its `'type'` tag
(`{**logo, 'type': logo_type}`). -/
structure TypedLogo where
  logo : Logo
  ltype : String
deriving DecidableEq, Repr

/-- One FAQ entry (`{question, answer}`). -/
structure Faq where
  question : String
  answer : String
deriving DecidableEq, Repr

/-- The slice of a per-page record (`extract_comprehensive_data`) that the
verified properties read.  `url` is always the fetched URL (the extractor
sets `'url': url`).  Fields of the record not touched by any verified
property (title, hero section, pricing, ...) are omitted from the
embedding. -/
structure PageData where
  url : String
  pageType : String
  text : String
  links : List LinkItem
  logos : List Logo
  faqs : List Faq
deriving DecidableEq, Repr

/-- A frontier work item (`{'url': ..., 'depth': ..., 'priority': ...}`). -/
structure CrawlTask where
  url : String
  depth : Nat
  priority : Nat
deriving DecidableEq, Repr

/-! ### Link priority (`get_link_priority`) -/

def priorityCriticalKws : List String :=
  ["about", "about-us", "who-we-are", "our-story", "brand", "mission", "values"]

def priorityHighKws : List String :=
  ["services", "products", "solutions", "features", "benefits", "team",
   "reviews", "testimonials", "faq", "pricing"]

def priorityMediumKws : List String :=
  ["story", "history", "awards", "news", "blog"]

/-- Points contributed by every keyword of `kws` found in the lowered URL
or link text. -/
def kwScore (u t : String) (kws : List String) (pts : Nat) : Nat :=
  pts * (kws.filter (fun kw => strHas u kw || strHas t kw)).length

/-- `get_link_priority(url, link_text)`: +20 once if any review-ish keyword
occurs, then +15/+8/+4 per critical/high/medium keyword found. -/
def getLinkPriority (url linkText : String) : Nat :=
  let u := lowerStr url
  let t := lowerStr linkText
  let base :=
    if (["review", "testimonial", "feedback", "faq", "about", "pricing"].any
        fun kw => strHas u kw || strHas t kw) then 20 else 0
  base + kwScore u t priorityCriticalKws 15 + kwScore u t priorityHighKws 8 +
    kwScore u t priorityMediumKws 4

/-! ### Aggregation (`process_collected_data`) -/

/-- The keyword list of the light/dark classifier (line 1600). -/
def logoKeyTerms : List String := ["dark", "white", "inverse", "light"]

/-- `'dark' if any(x in (classes + alt).lower() for x in [...]) else 'light'`.
Note that the keyword `"light"` also yields the type `'dark'`. -/
def logoType (l : Logo) : String :=
  if logoKeyTerms.any (fun x => strHas (lowerStr (l.classes ++ l.alt)) x) then "dark"
  else "light"

/-- Stable insertion into a prominence-descending list (equal keys keep
their original relative order, as Python's stable `sorted` does). -/
def insertByPromDesc (x : Logo) : List Logo → List Logo
  | [] => [x]
  | y :: ys =>
    if y.prominence ≤ x.prominence then x :: y :: ys
    else y :: insertByPromDesc x ys

/-- `sorted(logos, key=lambda x: x.get('prominence', 0), reverse=True)` —
a stable sort by prominence descending. -/
def sortLogosDesc (ls : List Logo) : List Logo :=
  ls.foldr insertByPromDesc []

/-- The dedup loop over the sorted candidates: keep the first occurrence of
each URL and tag it with its classified type (lines 1595-1601). -/
def dedupLogosAux : List Logo → List String → List TypedLogo
  | [], _ => []
  | l :: ls, seen =>
    if l.url ∈ seen then dedupLogosAux ls seen
    else ⟨l, logoType l⟩ :: dedupLogosAux ls (l.url :: seen)

/-- `unique_logos`: prominence-descending, first occurrence per URL, typed. -/
def uniqueLogos (ls : List Logo) : List TypedLogo :=
  dedupLogosAux (sortLogosDesc ls) []

/-- The `'logos'` entry of the result dictionary (lines 1800-1804). -/
structure LogosOut where
  light : Option String
  dark : Option String
  all : List TypedLogo
deriving DecidableEq, Repr

/-- `{'light': next((l['url'] for l in unique_logos if l['type']=='light'), None),
     'dark': ..., 'all': unique_logos[:20]}`. -/
def logosOutput (ls : List Logo) : LogosOut :=
  let u := uniqueLogos ls
  { light := (u.find? (fun l => l.ltype = "light")).map (fun l => l.logo.url)
    dark := (u.find? (fun l => l.ltype = "dark")).map (fun l => l.logo.url)
    all := u.take 20 }

/-- The FAQ dedup loop (lines 1620-1627): an entry is kept only when its
question text is non-empty (`if q and q not in seen_faq_q`) and not seen
before. -/
def dedupFaqsAux : List Faq → List String → List Faq
  | [], _ => []
  | f :: fs, seen =>
    if f.question ≠ "" ∧ f.question ∉ seen then
      f :: dedupFaqsAux fs (f.question :: seen)
    else dedupFaqsAux fs seen

/-- `unique_faqs` as built by `process_collected_data`. -/
def dedupFaqs (fs : List Faq) : List Faq :=
  dedupFaqsAux fs []

/-! ### Metrics -/

/-- The `self.metrics` counters the verified properties read.
`retry_count` is incremented inside `fetch_page_with_retry` (modelled
separately as `fetchPageWithRetry`); the transition system does not vary
it. -/
structure Metrics where
  pagesCrawled : Nat
  pagesFailed : Nat
  totalTextExtracted : Nat
  retryCount : Nat
  captchaCount : Nat
  blockedCount : Nat
deriving DecidableEq, Repr

def Metrics.init : Metrics := ⟨0, 0, 0, 0, 0, 0⟩

/-- The `'metrics'` sub-dictionary of the returned result
(lines 1809-1818); `crawl_duration` is wall-clock time, taken here as an
exact rational input. -/
structure MetricsOut where
  pages_crawled : Nat
  pages_failed : Nat
  total_text_extracted : Nat
  retry_count : Nat
  captcha_count : Nat
  blocked_count : Nat
  crawl_duration : ℚ
  avg_page_load_time : ℚ

/-- Build the metrics dictionary; `avg_page_load_time =
crawl_duration / max(pages_crawled, 1)` (line 1817). -/
def processMetrics (m : Metrics) (duration : ℚ) : MetricsOut :=
  { pages_crawled := m.pagesCrawled
    pages_failed := m.pagesFailed
    total_text_extracted := m.totalTextExtracted
    retry_count := m.retryCount
    captcha_count := m.captchaCount
    blocked_count := m.blockedCount
    crawl_duration := duration
    avg_page_load_time := duration / ((max m.pagesCrawled 1 : Nat) : ℚ) }

/-! ### Fetch retry loop (`fetch_page_with_retry`) -/

/-- Outcome of one `page.goto(url, wait_until='networkidle')` attempt. -/
inductive AttemptOutcome where
  | success
  | timeoutErr
  | err
deriving DecidableEq, Repr

/-- The environment of one fetch: the outcome of each `networkidle`
attempt and whether the final `domcontentloaded` fallback load succeeds. -/
structure FetchEnv where
  attempt : Nat → AttemptOutcome
  finalFallback : Bool

/-- The retry loop body: `remaining` attempts of the `for` loop are left;
a timeout on the last attempt falls back to a `domcontentloaded` load
(lines 141-170).  Always returns a `Bool` — failures are returned, not
raised. -/
def fetchRetryAux (env : FetchEnv) (maxRetries : Nat) : Nat → Bool
  | 0 => false
  | remaining + 1 =>
    match env.attempt (maxRetries - (remaining + 1)) with
    | .success => true
    | .timeoutErr =>
      if remaining = 0 then env.finalFallback else fetchRetryAux env maxRetries remaining
    | .err =>
      if remaining = 0 then false else fetchRetryAux env maxRetries remaining

/-- `fetch_page_with_retry(page, url, max_retries)`. -/
def fetchPageWithRetry (env : FetchEnv) (maxRetries : Nat) : Bool :=
  fetchRetryAux env maxRetries maxRetries

/-! ### The worker transition system

Each constructor of `WPhase` is a program point of the `worker` coroutine
between two `await`/lock boundaries; each `Act` is one atomic step.  The
lock-protected regions of the Python code (check-then-insert into the
visited set, the merge block, each link push, the final budget check) are
single steps, so all interleavings of the event loop are covered.  The
worker-level `except Exception` handler (lines 1544-1546) is the
`raiseExc` step: it may fire anywhere inside the `try` block — also after
the merge already ran — and bumps `pages_failed` before falling through
to the final budget re-check. -/

/-- Program points of one worker between suspension points. -/
inductive WPhase where
  /-- at the top of the `while not self.crawl_complete` loop. -/
  | idle
  /-- popped `item` from the queue (line 1352), before the lock at 1361. -/
  | got (t : CrawlTask)
  /-- passed the check-then-insert: `url` was added to `visited_urls`. -/
  | claimed (t : CrawlTask)
  /-- passed the same-domain check (line 1367), about to fetch. -/
  | checked (t : CrawlTask)
  /-- fetch and bot checks succeeded, `extract_comprehensive_data` done. -/
  | extracted (t : CrawlTask) (pd : PageData)
  /-- inside the link-push loop (lines 1534-1540); `rest` still to push. -/
  | pushing (t : CrawlTask) (pd : PageData) (rest : List LinkItem)
  /-- inside the worker-level `except Exception` handler (lines
  1544-1546), after `pages_failed` was bumped, before `task_done` and the
  final budget re-check. -/
  | caught
  /-- the worker `break`-ed out of its loop. -/
  | exited
deriving DecidableEq, Repr

/-- The result of the fetch/bot-detection/extraction stage for one page,
chosen by the environment:
`fail` = `fetch_page_with_retry` returned `False`;
`captcha`/`blocked` = `handle_bot_detection` verdicts;
`ok pd` = the page loaded and `extract_comprehensive_data` returned `pd`. -/
inductive FetchOutcome where
  | fail
  | captcha
  | blocked
  | ok (pd : PageData)
deriving DecidableEq, Repr

/-- The shared crawl state: `visited_urls`, the `asyncio.Queue` frontier,
the collected-data fields the verified properties read, the metrics, the
`crawl_complete` flag and each worker's program point. -/
structure CrawlerState where
  visited : List String
  queue : List CrawlTask
  pages : List PageData
  textContent : String
  faqsAcc : List Faq
  logosAcc : List Logo
  metrics : Metrics
  crawlComplete : Bool
  workers : List WPhase
deriving DecidableEq, Repr

/-- Constructor arguments of `ComprehensiveWebCrawler.__init__` plus the
derived fields: `base_url = base_url.rstrip('/')`,
`domain = urlparse(base_url).netloc`. -/
structure Config where
  baseUrl : String
  maxDepth : Nat
  maxPages : Nat
  concurrency : Nat

def Config.domain (c : Config) : String := netloc c.baseUrl

def Config.seedUrl (c : Config) : String := rstripSlash c.baseUrl

/-- State after `crawl()` seeded the queue with
`{'url': self.base_url, 'depth': 0, 'priority': 100}` and spawned the
workers. -/
def initState (c : Config) : CrawlerState :=
  { visited := []
    queue := [⟨c.seedUrl, 0, 100⟩]
    pages := []
    textContent := ""
    faqsAcc := []
    logosAcc := []
    metrics := Metrics.init
    crawlComplete := false
    workers := List.replicate c.concurrency .idle }

/-- Replace worker `i`'s program point. -/
def setWorker (s : CrawlerState) (i : Nat) (p : WPhase) : CrawlerState :=
  { s with workers := s.workers.set i p }

/-- The merge block under `results_lock` (lines 1443-1528), restricted to
the fields the verified properties read: bump `pages_crawled` and the text
counter, append the page record, extend the text/FAQ/logo accumulators. -/
def mergePage (s : CrawlerState) (pd : PageData) : CrawlerState :=
  { s with
    metrics := { s.metrics with
      pagesCrawled := s.metrics.pagesCrawled + 1
      totalTextExtracted := s.metrics.totalTextExtracted + pd.text.length }
    pages := s.pages ++ [pd]
    textContent :=
      if pd.pageType ≠ "legal" then
        s.textContent ++ "\n\n=== PAGE: " ++ pd.url ++ " ===\n" ++ pd.text ++ "\n"
      else s.textContent
    faqsAcc := if pd.faqs ≠ [] then s.faqsAcc ++ pd.faqs else s.faqsAcc
    logosAcc := s.logosAcc ++ pd.logos }

/-- One iteration of the link-push loop (lines 1536-1540): normalize the
link, and under the lock enqueue it only if it is unvisited and
same-domain.  The page budget is NOT consulted here. -/
def pushLink (c : Config) (visited : List String) (queue : List CrawlTask)
    (depth : Nat) (l : LinkItem) : List CrawlTask :=
  let u := normalizeLink l.url
  if u ∉ visited ∧ netloc u = c.domain then
    queue ++ [⟨u, depth + 1, getLinkPriority u l.text⟩]
  else queue

/-- Atomic step labels (the worker id is a separate argument). -/
inductive Act where
  /-- `await asyncio.wait_for(self.pending_urls.get(), timeout=2.0)`. -/
  | pop
  /-- pop timed out with an empty queue and a non-empty visited set. -/
  | timeoutExit
  /-- the `while not self.crawl_complete` guard failed. -/
  | completeExit
  /-- the lock-protected check-then-insert (lines 1361-1365). -/
  | claim
  /-- the same-domain check (lines 1367-1369). -/
  | domainCheck
  /-- fetch + bot detection + extraction, outcome chosen by environment. -/
  | fetch (o : FetchOutcome)
  /-- the lock-protected merge block (lines 1443-1531). -/
  | merge
  /-- one iteration of the link-push loop (lines 1535-1540). -/
  | pushOne
  /-- an unexpected exception anywhere in the `try` block (1371-1542),
  caught by the worker-level handler (lines 1544-1546). -/
  | raiseExc
  /-- the lock-protected budget re-check (lines 1550-1554). -/
  | budgetCheck

def popStep (s : CrawlerState) (i : Nat) : Option CrawlerState :=
  match s.workers[i]? with
  | some .idle =>
    if s.crawlComplete then none
    else
      match s.queue with
      | [] => none
      | t :: q => some { setWorker s i (.got t) with queue := q }
  | _ => none

def timeoutStep (s : CrawlerState) (i : Nat) : Option CrawlerState :=
  match s.workers[i]? with
  | some .idle =>
    if s.crawlComplete then none
    else
      match s.queue, s.visited with
      | [], _ :: _ => some (setWorker s i .exited)
      | _, _ => none
  | _ => none

def completeStep (s : CrawlerState) (i : Nat) : Option CrawlerState :=
  match s.workers[i]? with
  | some .idle => if s.crawlComplete then some (setWorker s i .exited) else none
  | _ => none

/-- `async with self.results_lock: if url in visited or len(visited) >=
max_pages: skip else visited.add(url)`. -/
def claimStep (c : Config) (s : CrawlerState) (i : Nat) : Option CrawlerState :=
  match s.workers[i]? with
  | some (.got t) =>
    if t.url ∈ s.visited ∨ c.maxPages ≤ s.visited.length then
      some (setWorker s i .idle)
    else
      some { setWorker s i (.claimed t) with visited := t.url :: s.visited }
  | _ => none

/-- `if urlparse(url).netloc != self.domain: skip`. -/
def domainStep (c : Config) (s : CrawlerState) (i : Nat) : Option CrawlerState :=
  match s.workers[i]? with
  | some (.claimed t) =>
    if netloc t.url = c.domain then some (setWorker s i (.checked t))
    else some (setWorker s i .idle)
  | _ => none

/-- The fetch/bot-detection/extraction stage.  Failure outcomes bump
`pages_failed` (and the bot counters, as `handle_bot_detection` does) and
`continue` the loop; a successful extraction always carries the fetched
URL (`data = {'url': url, ...}`). -/
def fetchStep (s : CrawlerState) (i : Nat) (o : FetchOutcome) : Option CrawlerState :=
  match s.workers[i]? with
  | some (.checked t) =>
    match o with
    | .fail =>
      some { setWorker s i .idle with
        metrics := { s.metrics with pagesFailed := s.metrics.pagesFailed + 1 } }
    | .captcha =>
      some { setWorker s i .idle with
        metrics := { s.metrics with
          pagesFailed := s.metrics.pagesFailed + 1
          captchaCount := s.metrics.captchaCount + 1 } }
    | .blocked =>
      some { setWorker s i .idle with
        metrics := { s.metrics with
          pagesFailed := s.metrics.pagesFailed + 1
          blockedCount := s.metrics.blockedCount + 1 } }
    | .ok pd =>
      if pd.url = t.url then some (setWorker s i (.extracted t pd)) else none
  | _ => none

/-- Enter the merge block, then the link-push loop: links are pushed only
`if depth < self.max_depth` (line 1534). -/
def mergeStep (c : Config) (s : CrawlerState) (i : Nat) : Option CrawlerState :=
  match s.workers[i]? with
  | some (.extracted t pd) =>
    some (setWorker (mergePage s pd) i
      (.pushing t pd (if t.depth < c.maxDepth then pd.links else [])))
  | _ => none

def pushStep (c : Config) (s : CrawlerState) (i : Nat) : Option CrawlerState :=
  match s.workers[i]? with
  | some (.pushing t pd (l :: rest)) =>
    some { setWorker s i (.pushing t pd rest) with
      queue := pushLink c s.visited s.queue t.depth l }
  | _ => none

/-- The worker-level `except Exception` handler (lines 1544-1546): an
unexpected exception anywhere in the `try` block — before the merge
(browser/page machinery, extraction plumbing) or after it (a raising
`progress_callback` at line 1531, a link-push failure, `page.close()` at
line 1542) — increments `pages_failed` and falls through to `task_done`
and the final budget re-check.  After the merge this counts the same page
in both `pages_crawled` and `pages_failed`. -/
def raiseStep (s : CrawlerState) (i : Nat) : Option CrawlerState :=
  match s.workers[i]? with
  | some (.checked _) =>
    some { setWorker s i .caught with
      metrics := { s.metrics with pagesFailed := s.metrics.pagesFailed + 1 } }
  | some (.extracted _ _) =>
    some { setWorker s i .caught with
      metrics := { s.metrics with pagesFailed := s.metrics.pagesFailed + 1 } }
  | some (.pushing _ _ _) =>
    some { setWorker s i .caught with
      metrics := { s.metrics with pagesFailed := s.metrics.pagesFailed + 1 } }
  | _ => none

/-- `async with self.results_lock: if len(visited) >= max_pages:
crawl_complete = True; break` — reached on the success path (line 1542
fell through) and after the worker-level exception handler. -/
def budgetStep (c : Config) (s : CrawlerState) (i : Nat) : Option CrawlerState :=
  match s.workers[i]? with
  | some (.pushing _ _ []) =>
    if c.maxPages ≤ s.visited.length then
      some { setWorker s i .exited with crawlComplete := true }
    else some (setWorker s i .idle)
  | some .caught =>
    if c.maxPages ≤ s.visited.length then
      some { setWorker s i .exited with crawlComplete := true }
    else some (setWorker s i .idle)
  | _ => none

/-- One atomic step of worker `i`. -/
def stepFn (c : Config) (s : CrawlerState) (i : Nat) : Act → Option CrawlerState
  | .pop => popStep s i
  | .timeoutExit => timeoutStep s i
  | .completeExit => completeStep s i
  | .claim => claimStep c s i
  | .domainCheck => domainStep c s i
  | .fetch o => fetchStep s i o
  | .merge => mergeStep c s i
  | .pushOne => pushStep c s i
  | .raiseExc => raiseStep s i
  | .budgetCheck => budgetStep c s i

/-- The step relation: some worker performs some atomic step. -/
def StepRel (c : Config) (s s' : CrawlerState) : Prop :=
  ∃ i a, stepFn c s i a = some s'

/-- States reachable in the crawl, over every interleaving of workers. -/
def Reach (c : Config) (s : CrawlerState) : Prop :=
  Relation.ReflTransGen (StepRel c) (initState c) s

/-- Execute an explicit schedule (a list of worker-id/step labels). -/
def runSteps (c : Config) : CrawlerState → List (Nat × Act) → Option CrawlerState
  | s, [] => some s
  | s, (i, a) :: rest =>
    match stepFn c s i a with
    | some s' => runSteps c s' rest
    | none => none

/-! ### The aggregated crawl result (`process_collected_data`) -/

/-- The slice of the returned result dictionary (lines 1773-1819) read by
the verified properties.  `pages_crawled` at top level is
`len(self.visited_urls)` (line 1799); `metrics.pages_crawled` counts
successful extractions. -/
structure CrawlResult where
  success : Bool
  faqs : List Faq
  char_count : Nat
  pages_crawled : Nat
  logos : LogosOut
  metrics : MetricsOut

/-- `process_collected_data`, restricted to the embedded fields:
`success` is the literal `True`, FAQs are deduplicated and capped at 30,
logos deduplicated/classified/capped at 20. -/
def processCollectedData (s : CrawlerState) (duration : ℚ) : CrawlResult :=
  { success := true
    faqs := (dedupFaqs s.faqsAcc).take 30
    char_count := s.textContent.length
    pages_crawled := s.visited.length
    logos := logosOutput s.logosAcc
    metrics := processMetrics s.metrics duration }

/-! ### The crawl invariant -/

/-- The URL a worker is exclusively processing after the check-then-insert
and before its page record is merged (or the page dropped). -/
def preMergeUrl : WPhase → Option String
  | .claimed t => some t.url
  | .checked t => some t.url
  | .extracted t _ => some t.url
  | _ => none

/-- URLs "accounted for": merged page records plus in-flight claims. -/
def activeUrls (s : CrawlerState) : List String :=
  s.pages.map (fun pd => pd.url) ++ s.workers.filterMap preMergeUrl

/-- Per-phase facts: past the domain check the task URL is same-domain,
and an extracted record carries the fetched URL. -/
def phaseOk (c : Config) : WPhase → Prop
  | .checked t => netloc t.url = c.domain
  | .extracted t pd => netloc t.url = c.domain ∧ pd.url = t.url
  | _ => True

/-- The inductive invariant of the crawl, preserved by every worker step
under every interleaving. -/
structure Inv (c : Config) (s : CrawlerState) : Prop where
  nodupVisited : s.visited.Nodup
  visitedBound : s.visited.length ≤ c.maxPages
  activeNodup : (activeUrls s).Nodup
  activeSub : ∀ u ∈ activeUrls s, u ∈ s.visited
  pagesDomain : ∀ pd ∈ s.pages, netloc pd.url = c.domain
  workersOk : ∀ ph ∈ s.workers, phaseOk c ph
  queueDomain : ∀ t ∈ s.queue, t.depth ≠ 0 → netloc t.url = c.domain
  crawledCount : s.metrics.pagesCrawled = s.pages.length
  countBound : s.pages.length +
    (s.workers.filterMap preMergeUrl).length ≤ s.visited.length


/-! ### Concrete crawl scenarios

Closed-form schedules used to witness the interleaving theorems and to
decide the concrete spec scenarios.  One worker (`concurrency = 1`) drives
a crawl of `http://ex.test`: that schedule is one legal interleaving of
the worker pool. -/

/-- A crawler for root `http://ex.test` with the spec's concrete budgets. -/
def cfgEx : Config := ⟨"http://ex.test", 3, 50, 1⟩

/-- Schedule in which the very first fetch (the root URL) exhausts its
retries: pop the seed, claim it, pass the domain check, fail the fetch,
then exit on queue-drain timeout. -/
def schedRootFail : List (Nat × Act) :=
  [(0, .pop), (0, .claim), (0, .domainCheck), (0, .fetch .fail), (0, .timeoutExit)]

/-- The state after `schedRootFail`. -/
def sRootFail : CrawlerState :=
  (runSteps cfgEx (initState cfgEx) schedRootFail).getD (initState cfgEx)

/-- The `n`-th child link of the scenario root page. -/
def pageLink (n : Nat) : LinkItem := ⟨"http://ex.test/p" ++ toString n, ""⟩

/-- The root page of the 10-task scenario: links to nine children. -/
def rootPd : PageData :=
  { url := "http://ex.test", pageType := "home", text := "",
    links := (List.range 9).map (fun n => pageLink (n + 1)), logos := [], faqs := [] }

/-- A child page with no further links. -/
def leafPd (n : Nat) : PageData :=
  { url := "http://ex.test/p" ++ toString n, pageType := "general", text := "",
    links := [], logos := [], faqs := [] }

/-- One successful page visit: pop, claim, domain check, fetch+extract,
merge, budget re-check. -/
def okVisit (n : Nat) : List (Nat × Act) :=
  [(0, .pop), (0, .claim), (0, .domainCheck), (0, .fetch (.ok (leafPd n))),
   (0, .merge), (0, .budgetCheck)]

/-- One permanently-failing page visit: the fetch exhausts its retries and
the worker continues (no budget re-check on the failure path). -/
def failVisit : List (Nat × Act) :=
  [(0, .pop), (0, .claim), (0, .domainCheck), (0, .fetch .fail)]

/-- The 10-task partial-failure scenario of the spec: the root page links
to `p1`..`p9`; `p3` and `p7` time out past the retry budget. -/
def schedPartial : List (Nat × Act) :=
  [(0, .pop), (0, .claim), (0, .domainCheck), (0, .fetch (.ok rootPd)), (0, .merge)]
    ++ (List.range 9).map (fun _ => ((0 : Nat), Act.pushOne))
    ++ [(0, .budgetCheck)]
    ++ okVisit 1 ++ okVisit 2 ++ failVisit ++ okVisit 4 ++ okVisit 5 ++ okVisit 6
    ++ failVisit ++ okVisit 8 ++ okVisit 9
    ++ [(0, .timeoutExit)]

/-- The state after the partial-failure scenario. -/
def sPartial : CrawlerState :=
  (runSteps cfgEx (initState cfgEx) schedPartial).getD (initState cfgEx)

/-- A fetch environment in which every `networkidle` attempt times out and
the final `domcontentloaded` fallback also fails. -/
def envNoLoad : FetchEnv := ⟨fun _ => .timeoutErr, false⟩

/-- A crawler whose page budget is a single page (for the `pushLink`
budget counterexample). -/
def cfgOnePage : Config := ⟨"http://ex.test", 3, 1, 1⟩

/-- The spec's logo dedup scenario, first page record's logos then the
second's. -/
def logosScenarioA : List Logo :=
  [⟨"a.png", "", "dark-logo", 50⟩, ⟨"a.png", "", "", 80⟩, ⟨"b.png", "", "light-logo", 10⟩]

/-- The same scenario with the two page records merged in the other
order. -/
def logosScenarioB : List Logo :=
  [⟨"a.png", "", "", 80⟩, ⟨"b.png", "", "light-logo", 10⟩, ⟨"a.png", "", "dark-logo", 50⟩]

/-- FAQ list with a duplicated non-empty question and an empty question. -/
def faqsW : List Faq := [⟨"Q", "A1"⟩, ⟨"", "E"⟩, ⟨"Q", "A2"⟩]

/-- A root page with no outbound links. -/
def soloPd : PageData :=
  { url := "http://ex.test", pageType := "home", text := "",
    links := [], logos := [], faqs := [] }

/-- Schedule in which the root page is fetched, extracted and merged, and
then the `try` block raises after the merge (e.g. the caller-supplied
`progress_callback` at line 1531 or `page.close()` at line 1542), so the
worker-level handler (lines 1544-1546) counts the already-merged page as
failed too. -/
def schedPostMergeRaise : List (Nat × Act) :=
  [(0, .pop), (0, .claim), (0, .domainCheck), (0, .fetch (.ok soloPd)),
   (0, .merge), (0, .raiseExc), (0, .budgetCheck), (0, .timeoutExit)]

/-- The state after `schedPostMergeRaise`. -/
def sPostMergeRaise : CrawlerState :=
  (runSteps cfgEx (initState cfgEx) schedPostMergeRaise).getD (initState cfgEx)

/-! ### List helper lemmas -/

theorem filterMap_cons_toList {α β : Type} (f : α → Option β) (a : α) (l : List α) :
    List.filterMap f (a :: l) = (f a).toList ++ List.filterMap f l := by
  cases h : f a <;> simp [List.filterMap_cons, h]

/-- Updating index `i` of a list splits its `filterMap` into a fixed
context around the image of the replaced element. -/
theorem filterMap_set_split {α β : Type} (f : α → Option β) :
    ∀ (w : List α) (i : Nat) (a : α), w[i]? = some a → ∀ b : α,
    ∃ pre post, w.filterMap f = pre ++ (f a).toList ++ post ∧
      (w.set i b).filterMap f = pre ++ (f b).toList ++ post := by
  intro w
  induction w with
  | nil => intro i a ha; simp at ha
  | cons x xs ih =>
    intro i a ha b
    cases i with
    | zero =>
      simp at ha
      subst ha
      exact ⟨[], xs.filterMap f, by simp [filterMap_cons_toList],
        by simp [List.set, filterMap_cons_toList]⟩
    | succ j =>
      simp at ha
      obtain ⟨pre, post, h1, h2⟩ := ih j a ha b
      refine ⟨(f x).toList ++ pre, post, ?_, ?_⟩
      · rw [filterMap_cons_toList, h1]; simp
      · rw [List.set, filterMap_cons_toList, h2]; simp

theorem filterMap_preMergeUrl_replicate (n : Nat) :
    (List.replicate n WPhase.idle).filterMap preMergeUrl = [] := by
  induction n with
  | zero => rfl
  | succ m ih => simp [List.replicate_succ, List.filterMap_cons, preMergeUrl, ih]

theorem inv_init (c : Config) : Inv c (initState c) := by
  refine ⟨?_, ?_, ?_, ?_, ?_, ?_, ?_, ?_, ?_⟩
  · exact List.nodup_nil
  · exact Nat.zero_le _
  · show (activeUrls (initState c)).Nodup
    unfold activeUrls initState
    rw [filterMap_preMergeUrl_replicate]
    exact List.nodup_nil
  · intro u hu
    unfold activeUrls initState at hu
    rw [filterMap_preMergeUrl_replicate] at hu
    simp at hu
  · intro pd hpd
    simp [initState] at hpd
  · intro ph hph
    simp only [initState] at hph
    rw [List.eq_of_mem_replicate hph]
    trivial
  · intro t ht hd
    simp only [initState, List.mem_singleton] at ht
    subst ht
    simp at hd
  · rfl
  · unfold initState
    rw [filterMap_preMergeUrl_replicate]
    simp [Metrics.init]

@[simp] theorem setWorker_visited (s : CrawlerState) (i : Nat) (p : WPhase) :
    (setWorker s i p).visited = s.visited := rfl

@[simp] theorem setWorker_queue (s : CrawlerState) (i : Nat) (p : WPhase) :
    (setWorker s i p).queue = s.queue := rfl

@[simp] theorem setWorker_pages (s : CrawlerState) (i : Nat) (p : WPhase) :
    (setWorker s i p).pages = s.pages := rfl

@[simp] theorem setWorker_metrics (s : CrawlerState) (i : Nat) (p : WPhase) :
    (setWorker s i p).metrics = s.metrics := rfl

@[simp] theorem setWorker_workers (s : CrawlerState) (i : Nat) (p : WPhase) :
    (setWorker s i p).workers = s.workers.set i p := rfl

theorem filterMap_set_eq {α β : Type} (f : α → Option β) (w : List α) (i : Nat)
    (a b : α) (hw : w[i]? = some a) (h : f b = f a) :
    (w.set i b).filterMap f = w.filterMap f := by
  obtain ⟨pre, post, h1, h2⟩ := filterMap_set_split f w i a hw b
  rw [h2, h, h1]

/-- Preservation of the invariant by any step that keeps the visited set,
the page list, the success counter and the multiset of in-flight
claims. -/
theorem Inv.of_eq_fields {c : Config} {s : CrawlerState} (h : Inv c s)
    (s' : CrawlerState)
    (hv : s'.visited = s.visited)
    (hqd : ∀ t ∈ s'.queue, t.depth ≠ 0 → netloc t.url = c.domain)
    (hp : s'.pages = s.pages)
    (hmc : s'.metrics.pagesCrawled = s.metrics.pagesCrawled)
    (hw : s'.workers.filterMap preMergeUrl = s.workers.filterMap preMergeUrl)
    (hwo : ∀ ph ∈ s'.workers, phaseOk c ph) : Inv c s' := by
  have hact : activeUrls s' = activeUrls s := by
    unfold activeUrls; rw [hp, hw]
  refine ⟨?_, ?_, ?_, ?_, ?_, hwo, hqd, ?_, ?_⟩
  · rw [hv]; exact h.nodupVisited
  · rw [hv]; exact h.visitedBound
  · rw [hact]; exact h.activeNodup
  · intro u hu; rw [hact] at hu; rw [hv]; exact h.activeSub u hu
  · intro pd hpd; rw [hp] at hpd; exact h.pagesDomain pd hpd
  · rw [hmc, hp]; exact h.crawledCount
  · rw [hv, hp, hw]; exact h.countBound

theorem mem_workers_of_get {s : CrawlerState} {i : Nat} {ph : WPhase}
    (hw : s.workers[i]? = some ph) : ph ∈ s.workers :=
  List.getElem?_mem hw

/-- `phaseOk` holds for every worker after one worker's phase is replaced
by a phase satisfying it. -/
theorem workersOk_set {c : Config} {s : CrawlerState} (h : Inv c s) (i : Nat)
    {p : WPhase} (hp : phaseOk c p) :
    ∀ ph ∈ s.workers.set i p, phaseOk c ph := by
  intro ph hph
  rcases List.mem_or_eq_of_mem_set hph with hmem | rfl
  · exact h.workersOk ph hmem
  · exact hp

theorem inv_popStep {c : Config} {s s' : CrawlerState} {i : Nat}
    (h : Inv c s) (hs : popStep s i = some s') : Inv c s' := by
  unfold popStep at hs
  cases hw : s.workers[i]? with
  | none => rw [hw] at hs; exact Option.noConfusion hs
  | some ph =>
    rw [hw] at hs
    cases ph with
    | idle =>
      by_cases hcc : s.crawlComplete = true
      · rw [if_pos hcc] at hs; exact Option.noConfusion hs
      · rw [if_neg hcc] at hs
        cases hq : s.queue with
        | nil => rw [hq] at hs; exact Option.noConfusion hs
        | cons t q =>
          rw [hq] at hs
          injection hs with hs
          subst hs
          refine h.of_eq_fields _ rfl ?_ rfl rfl ?_ ?_
          · intro t' ht' hd
            exact h.queueDomain t' (hq ▸ List.mem_cons_of_mem _ ht') hd
          · exact filterMap_set_eq preMergeUrl s.workers i _ _ hw rfl
          · exact workersOk_set h i trivial
    | got t => exact Option.noConfusion hs
    | claimed t => exact Option.noConfusion hs
    | checked t => exact Option.noConfusion hs
    | extracted t pd => exact Option.noConfusion hs
    | pushing t pd rest => exact Option.noConfusion hs
    | caught => exact Option.noConfusion hs
    | exited => exact Option.noConfusion hs

theorem inv_timeoutStep {c : Config} {s s' : CrawlerState} {i : Nat}
    (h : Inv c s) (hs : timeoutStep s i = some s') : Inv c s' := by
  unfold timeoutStep at hs
  cases hw : s.workers[i]? with
  | none => rw [hw] at hs; exact Option.noConfusion hs
  | some ph =>
    rw [hw] at hs
    cases ph with
    | idle =>
      by_cases hcc : s.crawlComplete = true
      · rw [if_pos hcc] at hs; exact Option.noConfusion hs
      · rw [if_neg hcc] at hs
        cases hq : s.queue with
        | cons t q => rw [hq] at hs; exact Option.noConfusion hs
        | nil =>
          cases hv : s.visited with
          | nil => rw [hq, hv] at hs; exact Option.noConfusion hs
          | cons u us =>
            rw [hq, hv] at hs
            injection hs with hs
            subst hs
            refine h.of_eq_fields _ rfl (fun t ht hd => h.queueDomain t ht hd) rfl rfl ?_ ?_
            · exact filterMap_set_eq preMergeUrl s.workers i _ _ hw rfl
            · exact workersOk_set h i trivial
    | got t => exact Option.noConfusion hs
    | claimed t => exact Option.noConfusion hs
    | checked t => exact Option.noConfusion hs
    | extracted t pd => exact Option.noConfusion hs
    | pushing t pd rest => exact Option.noConfusion hs
    | caught => exact Option.noConfusion hs
    | exited => exact Option.noConfusion hs

theorem inv_completeStep {c : Config} {s s' : CrawlerState} {i : Nat}
    (h : Inv c s) (hs : completeStep s i = some s') : Inv c s' := by
  unfold completeStep at hs
  cases hw : s.workers[i]? with
  | none => rw [hw] at hs; exact Option.noConfusion hs
  | some ph =>
    rw [hw] at hs
    cases ph with
    | idle =>
      by_cases hcc : s.crawlComplete = true
      · rw [if_pos hcc] at hs
        injection hs with hs
        subst hs
        refine h.of_eq_fields _ rfl (fun t ht hd => h.queueDomain t ht hd) rfl rfl ?_ ?_
        · exact filterMap_set_eq preMergeUrl s.workers i _ _ hw rfl
        · exact workersOk_set h i trivial
      · rw [if_neg hcc] at hs; exact Option.noConfusion hs
    | got t => exact Option.noConfusion hs
    | claimed t => exact Option.noConfusion hs
    | checked t => exact Option.noConfusion hs
    | extracted t pd => exact Option.noConfusion hs
    | pushing t pd rest => exact Option.noConfusion hs
    | caught => exact Option.noConfusion hs
    | exited => exact Option.noConfusion hs

/-- Preservation of the invariant by a step that gives up an in-flight
claim (cross-domain skip, fetch failure, CAPTCHA, block, worker-level
exception before the merge), whatever it does to the failure counters. -/
theorem Inv.drop_claim {c : Config} {s : CrawlerState} (h : Inv c s)
    {i : Nat} {ph : WPhase} {u : String} {p : WPhase}
    (hw : s.workers[i]? = some ph)
    (hu : preMergeUrl ph = some u) (hp : preMergeUrl p = none)
    (hpo : phaseOk c p) (s' : CrawlerState)
    (hv : s'.visited = s.visited) (hq : s'.queue = s.queue)
    (hpg : s'.pages = s.pages) (hw' : s'.workers = s.workers.set i p)
    (hmc : s'.metrics.pagesCrawled = s.metrics.pagesCrawled) : Inv c s' := by
  obtain ⟨pre, post, h1, h2⟩ := filterMap_set_split preMergeUrl s.workers i ph hw p
  rw [hu] at h1
  rw [hp] at h2
  simp only [Option.toList, List.append_nil, List.nil_append] at h1 h2
  have hsub : List.Sublist (pre ++ post) (pre ++ u :: post) :=
    List.Sublist.append (List.Sublist.refl pre) (List.sublist_cons_self u post)
  have hact_old : activeUrls s = s.pages.map (fun pd => pd.url) ++ (pre ++ u :: post) := by
    unfold activeUrls; rw [h1]; simp
  have hact_new : activeUrls s' = s.pages.map (fun pd => pd.url) ++ (pre ++ post) := by
    unfold activeUrls; rw [hpg, hw', h2]
  have hsub' : List.Sublist (activeUrls s') (activeUrls s) := by
    rw [hact_old, hact_new]
    exact List.Sublist.append (List.Sublist.refl _) hsub
  refine ⟨?_, ?_, ?_, ?_, ?_, ?_, ?_, ?_, ?_⟩
  · rw [hv]; exact h.nodupVisited
  · rw [hv]; exact h.visitedBound
  · exact List.Nodup.sublist hsub' h.activeNodup
  · intro x hx; rw [hv]; exact h.activeSub x (hsub'.subset hx)
  · intro pd hpd; rw [hpg] at hpd; exact h.pagesDomain pd hpd
  · rw [hw']; exact workersOk_set h i hpo
  · intro t ht hd; rw [hq] at ht; exact h.queueDomain t ht hd
  · rw [hmc, hpg]; exact h.crawledCount
  · have hlen := h.countBound
    rw [h1] at hlen
    rw [hv, hpg, hw', h2]
    simp only [List.length_append, List.length_cons, List.length_nil] at hlen ⊢
    omega

theorem inv_claimStep {c : Config} {s s' : CrawlerState} {i : Nat}
    (h : Inv c s) (hs : claimStep c s i = some s') : Inv c s' := by
  unfold claimStep at hs
  cases hw : s.workers[i]? with
  | none => rw [hw] at hs; exact Option.noConfusion hs
  | some ph =>
    rw [hw] at hs
    cases ph with
    | got t =>
      replace hs :
          (if t.url ∈ s.visited ∨ c.maxPages ≤ s.visited.length then
            some (setWorker s i .idle)
          else
            some { setWorker s i (.claimed t) with visited := t.url :: s.visited }) =
          some s' := hs
      by_cases hcond : t.url ∈ s.visited ∨ c.maxPages ≤ s.visited.length
      · rw [if_pos hcond] at hs
        injection hs with hs
        subst hs
        refine h.of_eq_fields _ rfl (fun t' ht' hd => h.queueDomain t' ht' hd) rfl rfl ?_ ?_
        · exact filterMap_set_eq preMergeUrl s.workers i _ _ hw rfl
        · exact workersOk_set h i trivial
      · rw [if_neg hcond] at hs
        injection hs with hs
        subst hs
        push_neg at hcond
        obtain ⟨hnotmem, hlt⟩ := hcond
        obtain ⟨pre, post, h1, h2⟩ :=
          filterMap_set_split preMergeUrl s.workers i _ hw (.claimed t)
        simp only [preMergeUrl, Option.toList, List.append_nil, List.nil_append] at h1 h2
        have hact_old : activeUrls s = s.pages.map (fun pd => pd.url) ++ (pre ++ post) := by
          unfold activeUrls; rw [h1]
        have hact_new :
            activeUrls { setWorker s i (.claimed t) with visited := t.url :: s.visited } =
            (s.pages.map (fun pd => pd.url) ++ pre) ++ t.url :: post := by
          unfold activeUrls
          simp only [setWorker]
          rw [h2]
          simp [List.append_assoc]
        have hnotact : t.url ∉ activeUrls s := fun hmem => hnotmem (h.activeSub _ hmem)
        refine ⟨?_, ?_, ?_, ?_, ?_, ?_, ?_, ?_, ?_⟩
        · exact List.nodup_cons.mpr ⟨hnotmem, h.nodupVisited⟩
        · simpa using hlt
        · rw [hact_new]
          rw [List.nodup_middle]
          refine List.nodup_cons.mpr ⟨?_, ?_⟩
          · intro hmem
            apply hnotact
            rw [hact_old, List.append_assoc] at *
            simpa using hmem
          · have := h.activeNodup
            rw [hact_old] at this
            simpa [List.append_assoc] using this
        · intro x hx
          rw [hact_new] at hx
          rcases List.mem_append.mp hx with hx1 | hx2
          · refine List.mem_cons_of_mem _ (h.activeSub x ?_)
            rw [hact_old]
            rcases List.mem_append.mp hx1 with hxa | hxb
            · exact List.mem_append.mpr (Or.inl hxa)
            · exact List.mem_append.mpr (Or.inr (List.mem_append.mpr (Or.inl hxb)))
          · rcases List.mem_cons.mp hx2 with rfl | hx3
            · exact List.mem_cons_self _ _
            · refine List.mem_cons_of_mem _ (h.activeSub x ?_)
              rw [hact_old]
              exact List.mem_append.mpr (Or.inr (List.mem_append.mpr (Or.inr hx3)))
        · intro pd hpd; exact h.pagesDomain pd hpd
        · exact workersOk_set h i trivial
        · intro t' ht' hd; exact h.queueDomain t' ht' hd
        · exact h.crawledCount
        · have hlen := h.countBound
          rw [h1] at hlen
          show s.pages.length +
            ((s.workers.set i (.claimed t)).filterMap preMergeUrl).length ≤
            (t.url :: s.visited).length
          rw [h2]
          simp only [List.length_append, List.length_cons, List.length_nil] at hlen ⊢
          omega
    | idle => exact Option.noConfusion hs
    | claimed t => exact Option.noConfusion hs
    | checked t => exact Option.noConfusion hs
    | extracted t pd => exact Option.noConfusion hs
    | pushing t pd rest => exact Option.noConfusion hs
    | caught => exact Option.noConfusion hs
    | exited => exact Option.noConfusion hs

theorem inv_domainStep {c : Config} {s s' : CrawlerState} {i : Nat}
    (h : Inv c s) (hs : domainStep c s i = some s') : Inv c s' := by
  unfold domainStep at hs
  cases hw : s.workers[i]? with
  | none => rw [hw] at hs; exact Option.noConfusion hs
  | some ph =>
    rw [hw] at hs
    cases ph with
    | claimed t =>
      replace hs :
          (if netloc t.url = c.domain then some (setWorker s i (.checked t))
          else some (setWorker s i .idle)) = some s' := hs
      by_cases hcond : netloc t.url = c.domain
      · rw [if_pos hcond] at hs
        injection hs with hs
        subst hs
        refine h.of_eq_fields _ rfl (fun t' ht' hd => h.queueDomain t' ht' hd) rfl rfl ?_ ?_
        · exact filterMap_set_eq preMergeUrl s.workers i _ _ hw rfl
        · exact workersOk_set h i hcond
      · rw [if_neg hcond] at hs
        injection hs with hs
        subst hs
        exact h.drop_claim (u := t.url) (p := WPhase.idle) hw rfl rfl trivial _
          rfl rfl rfl rfl rfl
    | idle => exact Option.noConfusion hs
    | got t => exact Option.noConfusion hs
    | checked t => exact Option.noConfusion hs
    | extracted t pd => exact Option.noConfusion hs
    | pushing t pd rest => exact Option.noConfusion hs
    | caught => exact Option.noConfusion hs
    | exited => exact Option.noConfusion hs

theorem inv_fetchStep {c : Config} {s s' : CrawlerState} {i : Nat}
    {o : FetchOutcome} (h : Inv c s) (hs : fetchStep s i o = some s') : Inv c s' := by
  unfold fetchStep at hs
  cases hw : s.workers[i]? with
  | none => rw [hw] at hs; exact Option.noConfusion hs
  | some ph =>
    rw [hw] at hs
    cases ph with
    | checked t =>
      have hok : phaseOk c (.checked t) := h.workersOk _ (mem_workers_of_get hw)
      cases o with
      | fail =>
        injection hs with hs
        subst hs
        exact h.drop_claim (u := t.url) (p := WPhase.idle) hw rfl rfl trivial _
          rfl rfl rfl rfl rfl
      | captcha =>
        injection hs with hs
        subst hs
        exact h.drop_claim (u := t.url) (p := WPhase.idle) hw rfl rfl trivial _
          rfl rfl rfl rfl rfl
      | blocked =>
        injection hs with hs
        subst hs
        exact h.drop_claim (u := t.url) (p := WPhase.idle) hw rfl rfl trivial _
          rfl rfl rfl rfl rfl
      | ok pd =>
        replace hs :
            (if pd.url = t.url then some (setWorker s i (.extracted t pd)) else none) =
            some s' := hs
        by_cases hurl : pd.url = t.url
        · rw [if_pos hurl] at hs
          injection hs with hs
          subst hs
          refine h.of_eq_fields _ rfl (fun t' ht' hd => h.queueDomain t' ht' hd) rfl rfl ?_ ?_
          · exact filterMap_set_eq preMergeUrl s.workers i _ _ hw rfl
          · exact workersOk_set h i ⟨hok, hurl⟩
        · rw [if_neg hurl] at hs; exact Option.noConfusion hs
    | idle => exact Option.noConfusion hs
    | got t => exact Option.noConfusion hs
    | claimed t => exact Option.noConfusion hs
    | extracted t pd => exact Option.noConfusion hs
    | pushing t pd rest => exact Option.noConfusion hs
    | caught => exact Option.noConfusion hs
    | exited => exact Option.noConfusion hs

theorem inv_mergeStep {c : Config} {s s' : CrawlerState} {i : Nat}
    (h : Inv c s) (hs : mergeStep c s i = some s') : Inv c s' := by
  unfold mergeStep at hs
  cases hw : s.workers[i]? with
  | none => rw [hw] at hs; exact Option.noConfusion hs
  | some ph =>
    rw [hw] at hs
    cases ph with
    | extracted t pd =>
      injection hs with hs
      subst hs
      obtain ⟨hdom, hurl⟩ : netloc t.url = c.domain ∧ pd.url = t.url :=
        h.workersOk _ (mem_workers_of_get hw)
      obtain ⟨pre, post, h1, h2⟩ :=
        filterMap_set_split preMergeUrl s.workers i _ hw
          (.pushing t pd (if t.depth < c.maxDepth then pd.links else []))
      simp only [preMergeUrl, Option.toList, List.append_nil, List.nil_append] at h1 h2
      have hact_old :
          activeUrls s = (s.pages.map (fun pd => pd.url) ++ pre) ++ t.url :: post := by
        unfold activeUrls; rw [h1]; simp [List.append_assoc]
      have hmem_t : t.url ∈ activeUrls s := by
        rw [hact_old]; exact List.mem_append.mpr (Or.inr (List.mem_cons_self _ _))
      have hact_new :
          activeUrls (setWorker (mergePage s pd) i
            (.pushing t pd (if t.depth < c.maxDepth then pd.links else []))) =
          s.pages.map (fun x => x.url) ++ t.url :: (pre ++ post) := by
        unfold activeUrls
        simp only [setWorker_pages, setWorker_workers]
        show (mergePage s pd).pages.map (fun x => x.url) ++ _ = _
        rw [mergePage]
        simp only []
        rw [h2]
        simp [hurl, List.append_assoc]
      refine ⟨?_, ?_, ?_, ?_, ?_, ?_, ?_, ?_, ?_⟩
      · exact h.nodupVisited
      · exact h.visitedBound
      · rw [hact_new, List.nodup_middle]
        have := h.activeNodup
        rw [hact_old, List.nodup_middle] at this
        simpa [List.append_assoc] using this
      · intro x hx
        rw [hact_new] at hx
        apply h.activeSub
        rw [hact_old]
        rcases List.mem_append.mp hx with hx1 | hx2
        · exact List.mem_append.mpr (Or.inl (List.mem_append.mpr (Or.inl hx1)))
        · rcases List.mem_cons.mp hx2 with rfl | hx3
          · exact List.mem_append.mpr (Or.inr (List.mem_cons_self _ _))
          · rcases List.mem_append.mp hx3 with hxa | hxb
            · exact List.mem_append.mpr (Or.inl (List.mem_append.mpr (Or.inr hxa)))
            · exact List.mem_append.mpr (Or.inr (List.mem_cons_of_mem _ hxb))
      · intro pd' hpd'
        replace hpd' : pd' ∈ (mergePage s pd).pages := hpd'
        rw [mergePage] at hpd'
        simp only [List.mem_append, List.mem_singleton] at hpd'
        rcases hpd' with hpd' | rfl
        · exact h.pagesDomain pd' hpd'
        · rw [hurl]; exact hdom
      · exact workersOk_set h i trivial
      · intro t' ht' hd; exact h.queueDomain t' ht' hd
      · show (mergePage s pd).metrics.pagesCrawled = (mergePage s pd).pages.length
        rw [mergePage]
        simp [h.crawledCount]
      · have hlen := h.countBound
        rw [h1] at hlen
        show (mergePage s pd).pages.length +
          ((s.workers.set i _).filterMap preMergeUrl).length ≤ s.visited.length
        rw [mergePage, h2]
        simp only [List.length_append, List.length_cons, List.length_nil] at hlen ⊢
        omega
    | idle => exact Option.noConfusion hs
    | got t => exact Option.noConfusion hs
    | claimed t => exact Option.noConfusion hs
    | checked t => exact Option.noConfusion hs
    | pushing t pd rest => exact Option.noConfusion hs
    | caught => exact Option.noConfusion hs
    | exited => exact Option.noConfusion hs

theorem inv_pushStep {c : Config} {s s' : CrawlerState} {i : Nat}
    (h : Inv c s) (hs : pushStep c s i = some s') : Inv c s' := by
  unfold pushStep at hs
  cases hw : s.workers[i]? with
  | none => rw [hw] at hs; exact Option.noConfusion hs
  | some ph =>
    rw [hw] at hs
    cases ph with
    | pushing t pd rest =>
      cases rest with
      | nil => exact Option.noConfusion hs
      | cons l ls =>
        injection hs with hs
        subst hs
        refine h.of_eq_fields _ rfl ?_ rfl rfl ?_ ?_
        · intro t' ht' hd
          replace ht' : t' ∈ pushLink c s.visited s.queue t.depth l := ht'
          rw [pushLink] at ht'
          split at ht'
          · rcases List.mem_append.mp ht' with ht1 | ht2
            · exact h.queueDomain t' ht1 hd
            · rw [List.mem_singleton] at ht2
              subst ht2
              next hguard => exact hguard.2
          · exact h.queueDomain t' ht' hd
        · exact filterMap_set_eq preMergeUrl s.workers i _ _ hw rfl
        · exact workersOk_set h i trivial
    | idle => exact Option.noConfusion hs
    | got t => exact Option.noConfusion hs
    | claimed t => exact Option.noConfusion hs
    | checked t => exact Option.noConfusion hs
    | extracted t pd => exact Option.noConfusion hs
    | caught => exact Option.noConfusion hs
    | exited => exact Option.noConfusion hs

theorem inv_budgetStep {c : Config} {s s' : CrawlerState} {i : Nat}
    (h : Inv c s) (hs : budgetStep c s i = some s') : Inv c s' := by
  unfold budgetStep at hs
  cases hw : s.workers[i]? with
  | none => rw [hw] at hs; exact Option.noConfusion hs
  | some ph =>
    rw [hw] at hs
    cases ph with
    | pushing t pd rest =>
      cases rest with
      | cons l ls => exact Option.noConfusion hs
      | nil =>
        replace hs :
            (if c.maxPages ≤ s.visited.length then
              some { setWorker s i .exited with crawlComplete := true }
            else some (setWorker s i .idle)) = some s' := hs
        split at hs <;> injection hs with hs <;> subst hs <;>
          refine h.of_eq_fields _ rfl (fun t' ht' hd => h.queueDomain t' ht' hd) rfl rfl
            (filterMap_set_eq preMergeUrl s.workers i _ _ hw rfl)
            (workersOk_set h i trivial)
    | caught =>
      replace hs :
          (if c.maxPages ≤ s.visited.length then
            some { setWorker s i .exited with crawlComplete := true }
          else some (setWorker s i .idle)) = some s' := hs
      split at hs <;> injection hs with hs <;> subst hs <;>
        refine h.of_eq_fields _ rfl (fun t' ht' hd => h.queueDomain t' ht' hd) rfl rfl
          (filterMap_set_eq preMergeUrl s.workers i _ _ hw rfl)
          (workersOk_set h i trivial)
    | idle => exact Option.noConfusion hs
    | got t => exact Option.noConfusion hs
    | claimed t => exact Option.noConfusion hs
    | checked t => exact Option.noConfusion hs
    | extracted t pd => exact Option.noConfusion hs
    | exited => exact Option.noConfusion hs

theorem inv_raiseStep {c : Config} {s s' : CrawlerState} {i : Nat}
    (h : Inv c s) (hs : raiseStep s i = some s') : Inv c s' := by
  unfold raiseStep at hs
  cases hw : s.workers[i]? with
  | none => rw [hw] at hs; exact Option.noConfusion hs
  | some ph =>
    rw [hw] at hs
    cases ph with
    | checked t =>
      injection hs with hs
      subst hs
      exact h.drop_claim (u := t.url) (p := WPhase.caught) hw rfl rfl trivial _
        rfl rfl rfl rfl rfl
    | extracted t pd =>
      injection hs with hs
      subst hs
      exact h.drop_claim (u := t.url) (p := WPhase.caught) hw rfl rfl trivial _
        rfl rfl rfl rfl rfl
    | pushing t pd rest =>
      injection hs with hs
      subst hs
      refine h.of_eq_fields _ rfl (fun t' ht' hd => h.queueDomain t' ht' hd) rfl rfl ?_ ?_
      · exact filterMap_set_eq preMergeUrl s.workers i _ _ hw rfl
      · exact workersOk_set h i trivial
    | idle => exact Option.noConfusion hs
    | got t => exact Option.noConfusion hs
    | claimed t => exact Option.noConfusion hs
    | caught => exact Option.noConfusion hs
    | exited => exact Option.noConfusion hs

/-- The crawl invariant is preserved by every atomic step. -/
theorem inv_step {c : Config} {s s' : CrawlerState}
    (h : Inv c s) (hstep : StepRel c s s') : Inv c s' := by
  obtain ⟨i, a, hs⟩ := hstep
  cases a with
  | pop => exact inv_popStep h hs
  | timeoutExit => exact inv_timeoutStep h hs
  | completeExit => exact inv_completeStep h hs
  | claim => exact inv_claimStep h hs
  | domainCheck => exact inv_domainStep h hs
  | fetch o => exact inv_fetchStep h hs
  | merge => exact inv_mergeStep h hs
  | pushOne => exact inv_pushStep h hs
  | raiseExc => exact inv_raiseStep h hs
  | budgetCheck => exact inv_budgetStep h hs

/-- The crawl invariant holds in every reachable state. -/
theorem inv_reach {c : Config} {s : CrawlerState} (h : Reach c s) : Inv c s := by
  induction h with
  | refl => exact inv_init c
  | tail _ hstep ih => exact inv_step ih hstep

/-! ### Executable schedules are legal interleavings -/

theorem reach_of_runSteps_from {c : Config} :
    ∀ (l : List (Nat × Act)) {s s' : CrawlerState}, Reach c s →
    runSteps c s l = some s' → Reach c s' := by
  intro l
  induction l with
  | nil =>
    intro s s' h hr
    unfold runSteps at hr
    injection hr with hr
    exact hr ▸ h
  | cons x xs ih =>
    intro s s' h hr
    obtain ⟨i, a⟩ := x
    unfold runSteps at hr
    cases hstep : stepFn c s i a with
    | none => rw [hstep] at hr; exact Option.noConfusion hr
    | some s1 =>
      rw [hstep] at hr
      replace hr : runSteps c s1 xs = some s' := hr
      exact ih (Relation.ReflTransGen.tail h ⟨i, a, hstep⟩) hr

/-- Any state computed by `runSteps` from the initial state is reachable. -/
theorem reach_of_runSteps {c : Config} {l : List (Nat × Act)} {s' : CrawlerState}
    (h : runSteps c (initState c) l = some s') : Reach c s' :=
  reach_of_runSteps_from l Relation.ReflTransGen.refl h

set_option maxRecDepth 4000 in
/-- The partial-failure scenario state is reachable. -/
theorem reach_sPartial : Reach cfgEx sPartial :=
  reach_of_runSteps (l := schedPartial) (by decide)

/-! ### Properties of the FAQ dedup loop -/

theorem dedupFaqsAux_sublist : ∀ (fs : List Faq) (seen : List String),
    List.Sublist (dedupFaqsAux fs seen) fs := by
  intro fs
  induction fs with
  | nil => intro seen; exact List.Sublist.refl _
  | cons f fs ih =>
    intro seen
    unfold dedupFaqsAux
    split
    · exact List.cons_sublist_cons.mpr (ih _)
    · exact List.Sublist.cons _ (ih _)

theorem dedupFaqsAux_mem : ∀ (fs : List Faq) (seen : List String) (f : Faq),
    f ∈ dedupFaqsAux fs seen → f.question ≠ "" ∧ f.question ∉ seen := by
  intro fs
  induction fs with
  | nil => intro seen f hf; simp [dedupFaqsAux] at hf
  | cons g gs ih =>
    intro seen f hf
    unfold dedupFaqsAux at hf
    split at hf
    next hcond =>
      rcases List.mem_cons.mp hf with rfl | hf2
      · exact hcond
      · have hprops := ih _ _ hf2
        exact ⟨hprops.1, fun hmem => hprops.2 (List.mem_cons_of_mem _ hmem)⟩
    next hcond => exact ih _ _ hf

theorem dedupFaqsAux_nodup : ∀ (fs : List Faq) (seen : List String),
    ((dedupFaqsAux fs seen).map (fun f => f.question)).Nodup := by
  intro fs
  induction fs with
  | nil => intro seen; simp [dedupFaqsAux]
  | cons g gs ih =>
    intro seen
    unfold dedupFaqsAux
    split
    · rw [List.map_cons]
      refine List.nodup_cons.mpr ⟨?_, ih _⟩
      intro hmem
      obtain ⟨f, hf, hq⟩ := List.mem_map.mp hmem
      have h2 := (dedupFaqsAux_mem _ _ _ hf).2
      exact h2 (by rw [hq]; exact List.mem_cons_self _ _)
    · exact ih _

theorem dedupFaqsAux_complete : ∀ (fs : List Faq) (seen : List String) (f : Faq),
    f ∈ fs → f.question ≠ "" → f.question ∉ seen →
    ∃ g ∈ dedupFaqsAux fs seen, g.question = f.question := by
  intro fs
  induction fs with
  | nil => intro seen f hf; simp at hf
  | cons g gs ih =>
    intro seen f hf hq hseen
    unfold dedupFaqsAux
    rcases List.mem_cons.mp hf with rfl | hf2
    · split
      next => exact ⟨f, List.mem_cons_self _ _, rfl⟩
      next hcond => exact absurd ⟨hq, hseen⟩ hcond
    · split
      next =>
        by_cases hsame : f.question = g.question
        · exact ⟨g, List.mem_cons_self _ _, hsame.symm⟩
        · obtain ⟨g', hg', hq'⟩ := ih _ f hf2 hq (by
            intro hmem
            rcases List.mem_cons.mp hmem with heq | hmem2
            · exact hsame heq
            · exact hseen hmem2)
          exact ⟨g', List.mem_cons_of_mem _ hg', hq'⟩
      next => exact ih _ f hf2 hq hseen

theorem dedupFaqsAux_first : ∀ (fs : List Faq) (seen : List String) (f : Faq),
    f ∈ dedupFaqsAux fs seen →
    fs.find? (fun g => g.question == f.question) = some f := by
  intro fs
  induction fs with
  | nil => intro seen f hf; simp [dedupFaqsAux] at hf
  | cons g gs ih =>
    intro seen f hf
    unfold dedupFaqsAux at hf
    split at hf
    next hcond =>
      rcases List.mem_cons.mp hf with rfl | hf2
      · exact List.find?_cons_of_pos _ (by simp)
      · have hne : f.question ≠ g.question := by
          have h2 := (dedupFaqsAux_mem _ _ _ hf2).2
          intro heq
          exact h2 (by rw [heq]; exact List.mem_cons_self _ _)
        rw [List.find?_cons_of_neg _ (by simp [beq_iff_eq]; exact fun heq => hne heq.symm)]
        exact ih _ _ hf2
    next hcond =>
      have hfprops := dedupFaqsAux_mem _ _ _ hf
      have hne : f.question ≠ g.question := by
        intro heq
        rcases not_and_or.mp hcond with hq0 | hqseen
        · push_neg at hq0
          exact hfprops.1 (heq.trans hq0)
        · push_neg at hqseen
          exact hfprops.2 (heq ▸ hqseen)
      rw [List.find?_cons_of_neg _ (by simp [beq_iff_eq]; exact fun heq => hne heq.symm)]
      exact ih _ _ hf

/-! ### Claim theorems -/

/-- C1: in every crawl and every interleaving of worker steps, each
distinct normalized URL is fetched at most once — the accounted URLs
(merged page records plus in-flight claims guarded by the lock's
check-then-insert) are pairwise distinct, so in particular no two page
records in the final result share a URL. -/
theorem c1_no_duplicate_fetch (c : Config) (s : CrawlerState) (h : Reach c s) :
    (activeUrls s).Nodup ∧ (s.pages.map (fun pd => pd.url)).Nodup := by
  have hinv := inv_reach h
  refine ⟨hinv.activeNodup, ?_⟩
  refine List.Nodup.sublist ?_ hinv.activeNodup
  unfold activeUrls
  exact List.sublist_append_left _ _

/-- C1 witness: the no-duplicate property at the reachable state of the
concrete 10-page schedule. -/
theorem c1_no_duplicate_fetch_witness :
    Reach cfgEx sPartial ∧ (activeUrls sPartial).Nodup ∧
      (sPartial.pages.map (fun pd => pd.url)).Nodup :=
  ⟨reach_sPartial, (c1_no_duplicate_fetch cfgEx sPartial reach_sPartial).1,
    (c1_no_duplicate_fetch cfgEx sPartial reach_sPartial).2⟩

/-- C4: for every crawl with page budget `max_pages`, the visited set
never exceeds the budget (the check-then-insert under the lock also
checks `len(visited) >= max_pages`), hence the number of page records is
at most the budget. -/
theorem c4_budget_respected (c : Config) (s : CrawlerState) (h : Reach c s) :
    s.visited.length ≤ c.maxPages ∧ s.pages.length ≤ c.maxPages := by
  have hinv := inv_reach h
  have h1 := hinv.visitedBound
  have h2 := hinv.countBound
  exact ⟨h1, by omega⟩

/-- C4 witness: the budget bounds at the reachable 10-page scenario
state. -/
theorem c4_budget_respected_witness :
    Reach cfgEx sPartial ∧ sPartial.visited.length ≤ cfgEx.maxPages ∧
      sPartial.pages.length ≤ cfgEx.maxPages :=
  ⟨reach_sPartial, (c4_budget_respected cfgEx sPartial reach_sPartial).1,
    (c4_budget_respected cfgEx sPartial reach_sPartial).2⟩

/-- C5: domain confinement — every page record produced has the root's
host, link tasks pushed onto the frontier (depth > 0) always carry the
root's host, and a fetch step can only fire for a worker holding a task
that passed the same-domain check. -/
theorem c5_domain_confinement (c : Config) (s : CrawlerState) (h : Reach c s) :
    (∀ pd ∈ s.pages, netloc pd.url = c.domain)
    ∧ (∀ t ∈ s.queue, t.depth ≠ 0 → netloc t.url = c.domain)
    ∧ (∀ i o s', stepFn c s i (.fetch o) = some s' →
        ∃ t, s.workers[i]? = some (.checked t) ∧ netloc t.url = c.domain) := by
  have hinv := inv_reach h
  refine ⟨hinv.pagesDomain, hinv.queueDomain, ?_⟩
  intro i o s' hs
  replace hs : fetchStep s i o = some s' := hs
  unfold fetchStep at hs
  cases hw : s.workers[i]? with
  | none => rw [hw] at hs; exact Option.noConfusion hs
  | some ph =>
    rw [hw] at hs
    cases ph with
    | checked t =>
      exact ⟨t, rfl, hinv.workersOk _ (mem_workers_of_get hw)⟩
    | idle => exact Option.noConfusion hs
    | got t => exact Option.noConfusion hs
    | claimed t => exact Option.noConfusion hs
    | extracted t pd => exact Option.noConfusion hs
    | pushing t pd rest => exact Option.noConfusion hs
    | caught => exact Option.noConfusion hs
    | exited => exact Option.noConfusion hs

/-- C5 witness: the scenario root page record has the root's host. -/
theorem c5_domain_confinement_witness :
    Reach cfgEx sPartial ∧ rootPd ∈ sPartial.pages ∧
      netloc rootPd.url = cfgEx.domain :=
  ⟨reach_sPartial, by decide,
    (c5_domain_confinement cfgEx sPartial reach_sPartial).1 rootPd (by decide)⟩

/-- C10 counterexample: when the `try` block raises after the merge (a
raising `progress_callback` or `page.close()`), the worker-level handler
(lines 1544-1546) counts the already-merged page as failed, so a one-page
crawl reaches visited = 1, `metrics.pages_crawled` = 1,
`metrics.pages_failed` = 1 — refuting both that top-level
`pages_crawled` bounds `metrics.pages_crawled + metrics.pages_failed`
and that any failure makes the two counts differ. -/
theorem c10_counterexample :
    runSteps cfgEx (initState cfgEx) schedPostMergeRaise = some sPostMergeRaise
    ∧ (processCollectedData sPostMergeRaise 0).pages_crawled = 1
    ∧ (processCollectedData sPostMergeRaise 0).metrics.pages_crawled = 1
    ∧ (processCollectedData sPostMergeRaise 0).metrics.pages_failed = 1
    ∧ ¬((processCollectedData sPostMergeRaise 0).metrics.pages_crawled +
        (processCollectedData sPostMergeRaise 0).metrics.pages_failed ≤
        (processCollectedData sPostMergeRaise 0).pages_crawled)
    ∧ ¬(1 ≤ (processCollectedData sPostMergeRaise 0).metrics.pages_failed →
        (processCollectedData sPostMergeRaise 0).metrics.pages_crawled <
        (processCollectedData sPostMergeRaise 0).pages_crawled) := by decide

/-- C10 amended: the top-level `pages_crawled` of the result equals the
size of the visited set (every URL ever claimed, including pages that
failed or were skipped), while `metrics.pages_crawled` counts only
successfully merged page records, so the former always dominates the
latter; the two need not differ when a page fails, because the
worker-level exception handler can count an already-merged page as failed
as well. -/
theorem c10_visited_vs_crawled (c : Config) (s : CrawlerState) (h : Reach c s)
    (d : ℚ) :
    (processCollectedData s d).pages_crawled = s.visited.length
    ∧ (processCollectedData s d).metrics.pages_crawled = s.pages.length
    ∧ (processCollectedData s d).metrics.pages_crawled ≤
        (processCollectedData s d).pages_crawled := by
  have hinv := inv_reach h
  have hc := hinv.crawledCount
  have hb := hinv.countBound
  refine ⟨rfl, hc, ?_⟩
  show s.metrics.pagesCrawled ≤ s.visited.length
  omega

/-- C10 witness: in the 10-page scenario (8 successes, 2 pre-merge
failures) the top-level count is 10 and the metrics count 8. -/
theorem c10_visited_vs_crawled_witness :
    Reach cfgEx sPartial
    ∧ (processCollectedData sPartial 0).pages_crawled = sPartial.visited.length
    ∧ (processCollectedData sPartial 0).metrics.pages_crawled = sPartial.pages.length
    ∧ (processCollectedData sPartial 0).metrics.pages_crawled ≤
        (processCollectedData sPartial 0).pages_crawled :=
  ⟨reach_sPartial,
    (c10_visited_vs_crawled cfgEx sPartial reach_sPartial 0).1,
    (c10_visited_vs_crawled cfgEx sPartial reach_sPartial 0).2.1,
    (c10_visited_vs_crawled cfgEx sPartial reach_sPartial 0).2.2⟩

/-- C3 counterexample: when the root URL is unreachable on every attempt
(the crawl "could not start"), the crawl still returns `success = true`
with zero pages crawled and one failure — refuting that `success=false`
is returned exactly when the crawl could not start. -/
theorem c3_counterexample :
    (runSteps cfgEx (initState cfgEx) schedRootFail).map
      (fun s => ((processCollectedData s 0).success,
                 (processCollectedData s 0).metrics.pages_crawled,
                 (processCollectedData s 0).metrics.pages_failed,
                 s.pages.length, s.workers)) =
      some (true, 0, 1, 0, [WPhase.exited]) := by decide

/-- C3 amended: the crawl never raises for page-level problems and the
returned result always has `success = true`; the code never returns
`success = false` in any state, root unreachable included. -/
theorem c3_success_always_true (s : CrawlerState) (d : ℚ) :
    (processCollectedData s d).success = true := rfl

/-- C7 counterexample: with the page budget already reached
(`len(visited) = max_pages = 1`), pushing a fresh same-domain link is NOT
a no-op — the task is enqueued anyway, because `pushLink` checks only
visited-membership and domain, not the budget. -/
theorem c7_counterexample :
    cfgOnePage.maxPages ≤ (["http://ex.test/"] : List String).length ∧
      pushLink cfgOnePage ["http://ex.test/"] [] 0 ⟨"http://ex.test/contact", "Contact"⟩
        ≠ [] := by decide

/-- C7 amended: `pushLink` is a no-op exactly when the normalized URL is
already visited or cross-domain; the page budget is not consulted at push
time (it is enforced at pop time by the check-then-insert, see C1/C4). -/
theorem c7_push_noop_characterization (c : Config) (visited : List String)
    (queue : List CrawlTask) (depth : Nat) (l : LinkItem) :
    pushLink c visited queue depth l = queue ↔
      (normalizeLink l.url ∈ visited ∨ netloc (normalizeLink l.url) ≠ c.domain) := by
  simp only [pushLink]
  split
  next hguard =>
    constructor
    · intro heq
      have hlen := congrArg List.length heq
      simp at hlen
    · intro hcase
      rcases hcase with hmem | hdom
      · exact absurd hmem hguard.1
      · exact absurd hguard.2 hdom
  next hguard =>
    rw [not_and_or, not_not] at hguard
    exact ⟨fun _ => hguard, fun _ => rfl⟩

set_option maxRecDepth 4000 in
/-- C6: a page whose every load attempt times out (and whose
`domcontentloaded` fallback also fails) yields `ok = false` from the
retry loop rather than an exception, and in the concrete 10-task crawl
where pages 3 and 7 permanently fail this way, the crawl completes with
`metrics.pages_crawled = 8`, `metrics.pages_failed = 2` and
`success = true`. -/
theorem c6_retry_exhaustion_scenario :
    fetchPageWithRetry envNoLoad 3 = false
    ∧ (runSteps cfgEx (initState cfgEx) schedPartial).map
        (fun s => ((processCollectedData s 0).metrics.pages_crawled,
                   (processCollectedData s 0).metrics.pages_failed,
                   (processCollectedData s 0).success,
                   s.workers)) =
        some (8, 2, true, [WPhase.exited]) := by
  constructor
  · decide
  · decide

/-- C9: the final `avg_page_load_time` equals
`crawl_duration / max(pages_crawled, 1)`, whose divisor is nonzero even
when zero pages succeeded. -/
theorem c9_avg_page_load_time (m : Metrics) (d : ℚ) (s : CrawlerState) :
    (processMetrics m d).avg_page_load_time = d / ((max m.pagesCrawled 1 : Nat) : ℚ)
    ∧ ((max m.pagesCrawled 1 : Nat) : ℚ) ≠ 0
    ∧ (processCollectedData s d).metrics.avg_page_load_time =
        d / ((max s.metrics.pagesCrawled 1 : Nat) : ℚ) := by
  refine ⟨rfl, ?_, rfl⟩
  exact Nat.cast_ne_zero.mpr (Nat.one_le_iff_ne_zero.mp (le_max_right _ _))

/-- C2 counterexample: on the spec's logo dedup scenario the aggregator
does NOT return `logos.dark = "a.png"` and `logos.light = "b.png"`. -/
theorem c2_counterexample :
    ¬((logosOutput logosScenarioA).dark = some "a.png" ∧
      (logosOutput logosScenarioA).light = some "b.png") := by decide

/-- C2 amended: the aggregator sorts by prominence descending and keeps
the first occurrence per URL, but classifies each kept logo from THAT
kept (highest-prominence) instance's class/alt text, and maps every
keyword of dark/white/inverse/light — "light" included — to type
`'dark'` (anything else to `'light'`).  Hence on the scenario, `a.png`
(kept at prominence 80 with empty text) is typed `'light'` and `b.png`
(class "light-logo") is typed `'dark'`, so `logos.dark = "b.png"` and
`logos.light = "a.png"`, in either merge order. -/
theorem c2_logo_dedup_scenario :
    (logosOutput logosScenarioA).all.map
        (fun tl => (tl.logo.url, tl.logo.prominence, tl.ltype)) =
      [("a.png", 80, "light"), ("b.png", 10, "dark")]
    ∧ (logosOutput logosScenarioA).dark = some "b.png"
    ∧ (logosOutput logosScenarioA).light = some "a.png"
    ∧ (logosOutput logosScenarioB).dark = some "b.png"
    ∧ (logosOutput logosScenarioB).light = some "a.png" := by decide

/-- C8 counterexample: a FAQ entry with empty question text is dropped
entirely by the dedup loop (`if q and q not in seen_faq_q`), not
retained. -/
theorem c8_counterexample :
    Faq.mk "" "Answer A" ∉ dedupFaqs [Faq.mk "" "Answer A"] ∧
      dedupFaqs [Faq.mk "" "Answer A"] = [] := by decide

/-- C8 amended: FAQ dedup keeps a subsequence of the input in which every
entry has a non-empty question, question texts are pairwise distinct,
every non-empty question of the input is represented, and the kept
representative is the input's first entry with that question; entries
with empty question text are all dropped. -/
theorem c8_faq_dedup (fs : List Faq) :
    List.Sublist (dedupFaqs fs) fs
    ∧ (∀ f ∈ dedupFaqs fs, f.question ≠ "")
    ∧ ((dedupFaqs fs).map (fun f => f.question)).Nodup
    ∧ (∀ f ∈ fs, f.question ≠ "" → ∃ g ∈ dedupFaqs fs, g.question = f.question)
    ∧ (∀ f ∈ dedupFaqs fs, fs.find? (fun g => g.question == f.question) = some f) := by
  refine ⟨dedupFaqsAux_sublist fs [], ?_, dedupFaqsAux_nodup fs [], ?_, ?_⟩
  · intro f hf
    exact (dedupFaqsAux_mem fs [] f hf).1
  · intro f hf hq
    exact dedupFaqsAux_complete fs [] f hf hq (by simp)
  · intro f hf
    exact dedupFaqsAux_first fs [] f hf

/-- C8 witness: on `[⟨"Q","A1"⟩, ⟨"","E"⟩, ⟨"Q","A2"⟩]` dedup keeps
exactly the first "Q" entry; the kept entry is the input's first match. -/
theorem c8_faq_dedup_witness :
    dedupFaqs faqsW = [Faq.mk "Q" "A1"]
    ∧ List.Sublist (dedupFaqs faqsW) faqsW
    ∧ (Faq.mk "Q" "A1").question ≠ ""
    ∧ faqsW.find? (fun g => g.question == (Faq.mk "Q" "A1").question) =
        some (Faq.mk "Q" "A1") :=
  ⟨by decide, (c8_faq_dedup faqsW).1,
    (c8_faq_dedup faqsW).2.1 (Faq.mk "Q" "A1") (by decide),
    (c8_faq_dedup faqsW).2.2.2.2 (Faq.mk "Q" "A1") (by decide)⟩

end Crawler
